import Mathlib

/-!
Verification of the Symphony_Gradient task-routing and consensus core.

Shallow embedding of the repository's Python source:
* `src/core/capability.py`   — capability matching (`CapabilityManager`)
* `src/protocol/beacon.py`   — `Beacon` serialization
* `src/protocol/response.py` — `BeaconResponse` serialization
* `src/agents/agent.py`      — task state machine and executor selection
* `src/agents/user.py`       — `User` construction
* `src/agent_register.py`    — the per-node BUSY/IDLE task gate
* `src/user_register.py`     — result voting and batch checkpointing

Machine integers do not overflow in any of the modelled code paths, so Python
ints are modelled by `Nat`/`Int` and Python floats (capability scores) by `ℚ`.
Fallible operations (Python exceptions) are modelled with `Option`/`Except`.
-/

namespace Symphony

/-! ### Generic fold helpers -/

/-- A predicate preserved by each step of a left fold holds of the result. -/
theorem foldl_preserve {α β : Type} (f : β → α → β) (P : β → Prop)
    (h : ∀ b a, P b → P (f b a)) :
    ∀ (l : List α) (b : β), P b → P (l.foldl f b) := by
  intro l
  induction l with
  | nil => intro b hb; simpa using hb
  | cons x xs ih =>
    intro b hb
    simpa using ih (f b x) (h b x hb)

/-- A left fold whose step fixes the accumulator returns the accumulator. -/
theorem foldl_fixed {α β : Type} (f : β → α → β) (c : β)
    (h : ∀ a, f c a = c) : ∀ l : List α, l.foldl f c = c := by
  intro l
  induction l with
  | nil => rfl
  | cons x xs ih => simpa [h x] using ih

/-- A left fold that reaches a fixed point on its first element stays there. -/
theorem foldl_head_fixed {α β : Type} (f : β → α → β) (c : β) (x : α) (init : β)
    (hx : f init x = c) (hc : ∀ a, f c a = c) :
    ∀ l : List α, (x :: l).foldl f init = c := by
  intro l
  rw [List.foldl_cons, hx]
  exact foldl_fixed f c hc l

/-! ### Capability matching (`src/core/capability.py`)

`CapabilityManager.match` lowercases the requirement and returns the maximum
`difflib.SequenceMatcher(None, tag, requirement).ratio()` over all owned tags,
rounded to 3 decimals.  `difflib` is Python standard library code, not part of
`src/`, so the ratio is modelled from the spec (§4.2). -/

/-- Length of the longest common prefix of two character lists. -/
def commonRunLen : List Char → List Char → Nat
  | a :: as, b :: bs => if a = b then commonRunLen as bs + 1 else 0
  | _, _ => 0

/-- Modelled from the spec: `difflib.SequenceMatcher` longest-matching-block
search (`find_longest_match`): the triple `(i, j, k)` maximising the length
`k` of a common run `a[i:i+k] = b[j:j+k]`, scanning lower `i` (then lower `j`)
first so that earliest positions win ties. -/
def bestMatch (a b : List Char) : Nat × Nat × Nat :=
  (List.range a.length).foldl (fun best i =>
    (List.range b.length).foldl (fun best j =>
      if best.2.2 < commonRunLen (a.drop i) (b.drop j)
      then (i, j, commonRunLen (a.drop i) (b.drop j)) else best) best) (0, 0, 0)

/-- Modelled from the spec: the total length `M` of matching blocks found by
the recursive longest-common-substring-first alignment (classic
sequence-matcher semantics).  Fuel-indexed so the definition is structural;
`a.length + b.length` fuel always suffices. -/
def matchTotal : Nat → List Char → List Char → Nat
  | 0, _, _ => 0
  | fuel + 1, a, b =>
    let m := bestMatch a b
    if m.2.2 = 0 then 0
    else
      matchTotal fuel (a.take m.1) (b.take m.2.1) + m.2.2 +
        matchTotal fuel (a.drop (m.1 + m.2.2)) (b.drop (m.2.1 + m.2.2))

/-- Modelled from the spec: `SequenceMatcher.ratio() = 2·M / (len(a)+len(b))`,
and `1.0` when both sequences are empty. -/
def ratioScore (a b : List Char) : ℚ :=
  if a.length + b.length = 0 then 1
  else 2 * (matchTotal (a.length + b.length) a b : ℚ) / (a.length + b.length : ℚ)

/-- Python's `round(q, 3)`: round to 3 decimal places. -/
def round3 (q : ℚ) : ℚ := (round (q * 1000) : ℚ) / 1000

/-- Python's `str.lower()`, modelled as character-wise lowercasing. -/
def strLower (s : String) : String := ⟨s.data.map Char.toLower⟩

/-- `CapabilityManager.__init__`: tags are lowercased and deduplicated
(`list(set(tag.lower() for tag in tags))`; the resulting order is immaterial
because `match` takes a maximum). -/
def CapabilityManager.normalize (capability_tags : List String) : List String :=
  (capability_tags.map strLower).dedup

/-- `CapabilityManager.match` (named `matchScore` here because `match` is a
Lean keyword): lowercase the requirement, take the best ratio over all owned
tags starting from `0.0`, and round the best score to 3 decimals. -/
def CapabilityManager.matchScore (capabilities : List String)
    (requirement : String) : ℚ :=
  round3 (capabilities.foldl
    (fun best_score tag =>
      max best_score (ratioScore tag.data (strLower requirement).data)) 0)

/-- `CapabilityManager.match_and_filter`: true iff the best match meets or
exceeds the threshold. -/
def CapabilityManager.match_and_filter (capabilities : List String)
    (requirement : String) (threshold : ℚ) : Bool :=
  decide (threshold ≤ CapabilityManager.matchScore capabilities requirement)

theorem commonRunLen_le_left : ∀ a b : List Char, commonRunLen a b ≤ a.length := by
  intro a
  induction a with
  | nil => intro b; cases b <;> simp [commonRunLen]
  | cons x xs ih =>
    intro b
    cases b with
    | nil => simp [commonRunLen]
    | cons y ys =>
      by_cases h : x = y <;> simp [commonRunLen, h]
      exact ih ys

theorem commonRunLen_le_right : ∀ a b : List Char, commonRunLen a b ≤ b.length := by
  intro a
  induction a with
  | nil => intro b; cases b <;> simp [commonRunLen]
  | cons x xs ih =>
    intro b
    cases b with
    | nil => simp [commonRunLen]
    | cons y ys =>
      by_cases h : x = y <;> simp [commonRunLen, h]
      exact ih ys

theorem commonRunLen_self : ∀ a : List Char, commonRunLen a a = a.length := by
  intro a
  induction a with
  | nil => rfl
  | cons x xs ih => simp [commonRunLen, ih]

/-- The best-match triple is either the trivial one or records the true run
length at its own positions. -/
theorem bestMatch_spec (a b : List Char) :
    bestMatch a b = (0, 0, 0) ∨
      (bestMatch a b).2.2 =
        commonRunLen (a.drop (bestMatch a b).1) (b.drop (bestMatch a b).2.1) := by
  unfold bestMatch
  apply foldl_preserve
    (P := fun best : Nat × Nat × Nat => best = (0, 0, 0) ∨
      best.2.2 = commonRunLen (a.drop best.1) (b.drop best.2.1))
  · intro best i hb
    apply foldl_preserve
      (P := fun best : Nat × Nat × Nat => best = (0, 0, 0) ∨
        best.2.2 = commonRunLen (a.drop best.1) (b.drop best.2.1))
    · intro best j hbj
      by_cases h : best.2.2 < commonRunLen (a.drop i) (b.drop j)
      · rw [if_pos h]
        exact Or.inr rfl
      · rw [if_neg h]
        exact hbj
    · exact hb
  · exact Or.inl rfl

theorem matchTotal_le :
    ∀ (fuel : Nat) (a b : List Char),
      matchTotal fuel a b ≤ a.length ∧ matchTotal fuel a b ≤ b.length := by
  intro fuel
  induction fuel with
  | zero => intro a b; simp [matchTotal]
  | succ n ih =>
    intro a b
    rw [matchTotal]
    by_cases hk : (bestMatch a b).2.2 = 0
    · simp [hk]
    · simp only [hk, if_false]
      rcases bestMatch_spec a b with h0 | hrun
      · rw [h0] at hk; simp at hk
      · set m := bestMatch a b with hm
        have hka : m.2.2 ≤ a.length - m.1 := by
          rw [hrun]
          simpa using commonRunLen_le_left (a.drop m.1) (b.drop m.2.1)
        have hkb : m.2.2 ≤ b.length - m.2.1 := by
          rw [hrun]
          simpa using commonRunLen_le_right (a.drop m.1) (b.drop m.2.1)
        have h1 := ih (a.take m.1) (b.take m.2.1)
        have h2 := ih (a.drop (m.1 + m.2.2)) (b.drop (m.2.1 + m.2.2))
        simp only [List.length_take, List.length_drop] at h1 h2
        omega

theorem bestMatch_self (a : List Char) (ha : a ≠ []) :
    bestMatch a a = (0, 0, a.length) := by
  have hlen : 0 < a.length := List.length_pos.mpr ha
  obtain ⟨n, hn⟩ : ∃ n, a.length = n + 1 := ⟨a.length - 1, by omega⟩
  have hbound : ∀ i j : Nat,
      commonRunLen (a.drop i) (a.drop j) ≤ a.length := by
    intro i j
    calc commonRunLen (a.drop i) (a.drop j) ≤ (a.drop i).length :=
          commonRunLen_le_left _ _
      _ ≤ a.length := by simp
  have hself : commonRunLen (a.drop 0) (a.drop 0) = a.length := by
    simpa using commonRunLen_self a
  have hrange : List.range a.length = 0 :: List.map Nat.succ (List.range n) := by
    rw [hn, List.range_succ_eq_map]
  have hkeep : ∀ (i : Nat) (l : List Nat),
      l.foldl (fun best j =>
        if best.2.2 < commonRunLen (a.drop i) (a.drop j)
        then (i, j, commonRunLen (a.drop i) (a.drop j)) else best)
        (0, 0, a.length) = (0, 0, a.length) := by
    intro i l
    apply foldl_fixed
    intro j
    exact if_neg (Nat.not_lt.mpr (hbound i j))
  unfold bestMatch
  rw [hrange]
  apply foldl_head_fixed
  · show List.foldl _ ((0, 0, 0) : Nat × Nat × Nat) (0 :: List.map Nat.succ (List.range n))
      = ((0 : Nat), (0 : Nat), a.length)
    apply foldl_head_fixed
    · show (if ((0, 0, 0) : Nat × Nat × Nat).2.2 < commonRunLen (a.drop 0) (a.drop 0)
          then ((0 : Nat), (0 : Nat), commonRunLen (a.drop 0) (a.drop 0))
          else (0, 0, 0)) = ((0 : Nat), (0 : Nat), a.length)
      rw [if_pos (by rw [hself]; exact hlen), hself]
    · intro j
      exact if_neg (Nat.not_lt.mpr (hbound 0 j))
  · intro i
    exact hkeep i (0 :: List.map Nat.succ (List.range n))

theorem matchTotal_nil : ∀ fuel, matchTotal fuel [] [] = 0 := by
  intro fuel
  cases fuel with
  | zero => rfl
  | succ n =>
    rw [matchTotal]
    have : bestMatch [] [] = (0, 0, 0) := rfl
    simp [this]

theorem matchTotal_self (a : List Char) :
    matchTotal (a.length + a.length) a a = a.length := by
  by_cases ha : a = []
  · subst ha; simpa using matchTotal_nil 0
  · have hlen : 0 < a.length := List.length_pos.mpr ha
    obtain ⟨f, hf⟩ : ∃ f, a.length + a.length = f + 1 := ⟨a.length + a.length - 1, by omega⟩
    rw [hf, matchTotal, bestMatch_self a ha]
    simp only []
    rw [if_neg (by omega)]
    simp [matchTotal_nil]

theorem ratioScore_nonneg (a b : List Char) : 0 ≤ ratioScore a b := by
  unfold ratioScore
  by_cases h : a.length + b.length = 0
  · simp [h]
  · rw [if_neg h]
    apply div_nonneg
    · positivity
    · positivity

theorem ratioScore_le_one (a b : List Char) : ratioScore a b ≤ 1 := by
  unfold ratioScore
  by_cases h : a.length + b.length = 0
  · simp [h]
  · rw [if_neg h]
    rw [div_le_one (by exact_mod_cast Nat.pos_of_ne_zero h)]
    have hle := (matchTotal_le (a.length + b.length) a b)
    have : 2 * matchTotal (a.length + b.length) a b ≤ a.length + b.length := by omega
    exact_mod_cast this

theorem ratioScore_self (a : List Char) : ratioScore a a = 1 := by
  unfold ratioScore
  by_cases h : a.length + a.length = 0
  · simp [h]
  · rw [if_neg h, matchTotal_self]
    have hpos : (0 : ℚ) < (a.length : ℚ) := by
      have h0 : 0 < a.length := by omega
      exact_mod_cast h0
    rw [div_eq_one_iff_eq (by linarith)]
    ring

theorem round_monotone {x y : ℚ} (h : x ≤ y) : round x ≤ round y := by
  rw [round_eq, round_eq]
  exact Int.floor_le_floor (by linarith)

theorem round3_mem_unit {q : ℚ} (h0 : 0 ≤ q) (h1 : q ≤ 1) :
    0 ≤ round3 q ∧ round3 q ≤ 1 := by
  unfold round3
  constructor
  · apply div_nonneg _ (by norm_num)
    have : round (0 : ℚ) ≤ round (q * 1000) := round_monotone (by linarith)
    rw [round_zero] at this
    exact_mod_cast this
  · rw [div_le_one (by norm_num)]
    have : round (q * 1000) ≤ round ((1000 : ℚ)) := round_monotone (by linarith)
    rw [show ((1000 : ℚ)) = ((1000 : ℤ) : ℚ) by norm_num, round_intCast] at this
    exact_mod_cast this

theorem round3_one : round3 1 = 1 := by
  unfold round3
  rw [show ((1 : ℚ) * 1000) = ((1000 : ℤ) : ℚ) by norm_num, round_intCast]
  norm_num

theorem round3_zero : round3 0 = 0 := by
  unfold round3
  simp

/-- The running maximum in `matchScore` never decreases. -/
theorem foldl_max_ge_init (v : String → ℚ) :
    ∀ (l : List String) (init : ℚ), init ≤ l.foldl (fun b t => max b (v t)) init := by
  intro l
  induction l with
  | nil => intro init; simp
  | cons x xs ih =>
    intro init
    calc init ≤ max init (v x) := le_max_left _ _
      _ ≤ xs.foldl (fun b t => max b (v t)) (max init (v x)) := ih _
      _ = (x :: xs).foldl (fun b t => max b (v t)) init := by simp

/-- The running maximum in `matchScore` is bounded by any bound on the values. -/
theorem foldl_max_le (v : String → ℚ) (c : ℚ) :
    ∀ (l : List String) (init : ℚ), init ≤ c → (∀ t ∈ l, v t ≤ c) →
      l.foldl (fun b t => max b (v t)) init ≤ c := by
  intro l
  induction l with
  | nil => intro init h _; simpa using h
  | cons x xs ih =>
    intro init hinit hall
    simp only [List.foldl_cons]
    apply ih
    · exact max_le hinit (hall x (by simp))
    · intro t ht; exact hall t (by simp [ht])

/-- The running maximum in `matchScore` dominates every listed value. -/
theorem foldl_max_ge_mem (v : String → ℚ) :
    ∀ (l : List String) (init : ℚ) (t : String), t ∈ l →
      v t ≤ l.foldl (fun b t => max b (v t)) init := by
  intro l
  induction l with
  | nil => intro init t ht; simp at ht
  | cons x xs ih =>
    intro init t ht
    rcases List.mem_cons.mp ht with h | h
    · subst h
      calc v t ≤ max init (v t) := le_max_right _ _
        _ ≤ xs.foldl (fun b s => max b (v s)) (max init (v t)) := foldl_max_ge_init _ _ _
        _ = (t :: xs).foldl (fun b s => max b (v s)) init := by simp
    · simpa using ih (max init (v x)) t h

/-- Claim C5: for every capability set and every requirement string, `match`
returns a value in `[0, 1]`; and whenever the lowercased requirement equals
one of the stored (lowercased) tags, `match` returns exactly `1.0`. -/
theorem capability_match_unit_and_exact
    (capabilities : List String) (requirement : String) :
    (0 ≤ CapabilityManager.matchScore capabilities requirement ∧
      CapabilityManager.matchScore capabilities requirement ≤ 1) ∧
    (strLower requirement ∈ capabilities →
      CapabilityManager.matchScore capabilities requirement = 1) := by
  have hle : capabilities.foldl
      (fun best_score tag =>
        max best_score (ratioScore tag.data (strLower requirement).data)) 0 ≤ 1 :=
    foldl_max_le _ 1 capabilities 0 (by norm_num)
      (fun t _ => ratioScore_le_one _ _)
  have hge0 : (0 : ℚ) ≤ capabilities.foldl
      (fun best_score tag =>
        max best_score (ratioScore tag.data (strLower requirement).data)) 0 :=
    foldl_max_ge_init _ capabilities 0
  constructor
  · exact round3_mem_unit hge0 hle
  · intro hmem
    unfold CapabilityManager.matchScore
    have hge : ratioScore (strLower requirement).data (strLower requirement).data ≤
        capabilities.foldl
          (fun best_score tag =>
            max best_score (ratioScore tag.data (strLower requirement).data)) 0 :=
      foldl_max_ge_mem
        (fun tag => ratioScore tag.data (strLower requirement).data)
        capabilities 0 (strLower requirement) hmem
    rw [ratioScore_self] at hge
    have heq : capabilities.foldl
        (fun best_score tag =>
          max best_score (ratioScore tag.data (strLower requirement).data)) 0 = 1 :=
      le_antisymm hle hge
    rw [heq, round3_one]

/-- Witness for C5 at a concrete input: requirement `"Math"` lowercases to the
stored tag `"math"`, so the match score is exactly 1. -/
theorem capability_match_unit_and_exact_witness :
    strLower "Math" ∈ (["math", "plan"] : List String) ∧
      CapabilityManager.matchScore ["math", "plan"] "Math" = 1 :=
  ⟨by decide,
    (capability_match_unit_and_exact ["math", "plan"] "Math").2 (by decide)⟩

/-- Claim C9: with an empty capability set, `match` returns `0.0` on every
requirement, so `match_and_filter` rejects every strictly positive
threshold. -/
theorem capability_empty_match_zero (requirement : String) (threshold : ℚ)
    (hpos : 0 < threshold) :
    CapabilityManager.matchScore [] requirement = 0 ∧
      CapabilityManager.match_and_filter [] requirement threshold = false := by
  have h0 : CapabilityManager.matchScore [] requirement = 0 := by
    unfold CapabilityManager.matchScore
    simpa using round3_zero
  refine ⟨h0, ?_⟩
  unfold CapabilityManager.match_and_filter
  rw [h0]
  simpa using by linarith

/-- Witness for C9 at a concrete input. -/
theorem capability_empty_match_zero_witness :
    (0 : ℚ) < 1/2 ∧
      (CapabilityManager.matchScore [] "reasoning" = 0 ∧
        CapabilityManager.match_and_filter [] "reasoning" (1/2) = false) :=
  ⟨by norm_num, capability_empty_match_zero "reasoning" (1/2) (by norm_num)⟩

/-! ### Protocol messages (`src/protocol/beacon.py`, `src/protocol/response.py`)

`uuid.uuid4()` and `time.time()` are environment inputs; they enter the model
as explicit parameters.  A Python dict that may lack keys is modelled as a
record of `Option` fields. -/

/-- Python `s or fallback` on an optional string: `None` and `""` are falsy. -/
def pyOrStr (s : Option String) (fallback : String) : String :=
  match s with
  | none => fallback
  | some t => if t = "" then fallback else t

structure Beacon where
  beacon_id : String
  sender : String
  task_id : String
  requirement : String
  ttl : Int
  timestamp : Int
  deriving DecidableEq

structure BeaconDict where
  beacon_id : Option String
  sender : Option String
  task_id : Option String
  requirement : Option String
  ttl : Option Int
  timestamp : Option Int
  deriving DecidableEq

/-- `Beacon.__init__(sender, requirement, task_id=None, ttl=2)`: `beacon_id`
is a fresh uuid and `timestamp` the current clock reading (explicit
parameters here); `task_id` falls back to `beacon_id` when `None` or empty. -/
def Beacon.init (fresh_uuid : String) (now : Int) (sender requirement : String)
    (task_id : Option String) (ttl : Int) : Beacon :=
  { beacon_id := fresh_uuid
    sender := sender
    task_id := pyOrStr task_id fresh_uuid
    requirement := requirement
    ttl := ttl
    timestamp := now }

def Beacon.to_dict (b : Beacon) : BeaconDict :=
  { beacon_id := some b.beacon_id
    sender := some b.sender
    task_id := some b.task_id
    requirement := some b.requirement
    ttl := some b.ttl
    timestamp := some b.timestamp }

/-- `Beacon.from_dict`: construct via `__init__` (consuming a fresh uuid and a
clock reading), then overwrite `beacon_id` and `timestamp` from the dict,
drawing a second fresh uuid / clock reading when those keys are absent. -/
def Beacon.from_dict (fresh1 fresh2 : String) (now1 now2 : Int)
    (d : BeaconDict) : Beacon :=
  let b := Beacon.init fresh1 now1 (d.sender.getD "unknown")
    (d.requirement.getD "") d.task_id (d.ttl.getD 2)
  { b with beacon_id := d.beacon_id.getD fresh2
           timestamp := d.timestamp.getD now2 }

structure BeaconResponse where
  response_id : String
  responder_id : String
  task_id : String
  match_score : ℚ
  estimate_cost : ℚ
  timestamp : Int
  deriving DecidableEq

structure BeaconResponseDict where
  response_id : Option String
  responder_id : Option String
  task_id : Option String
  match_score : Option ℚ
  estimate_cost : Option ℚ
  timestamp : Option Int
  deriving DecidableEq

/-- `BeaconResponse.__init__`: clamps `match_score` into `[0, 1]` and
`estimate_cost` to `≥ 0`, rounding both to 3 decimals. -/
def BeaconResponse.init (fresh_uuid : String) (now : Int)
    (responder_id task_id : String) (match_score estimate_cost : ℚ) :
    BeaconResponse :=
  { response_id := fresh_uuid
    responder_id := responder_id
    task_id := task_id
    match_score := round3 (max 0 (min 1 match_score))
    estimate_cost := round3 (max 0 estimate_cost)
    timestamp := now }

def BeaconResponse.to_dict (r : BeaconResponse) : BeaconResponseDict :=
  { response_id := some r.response_id
    responder_id := some r.responder_id
    task_id := some r.task_id
    match_score := some r.match_score
    estimate_cost := some r.estimate_cost
    timestamp := some r.timestamp }

/-- `BeaconResponse.from_dict`: construct via `__init__` with documented
defaults (`match_score` 1.0, `estimate_cost` 1.0), then overwrite
`response_id` and `timestamp` from the dict. -/
def BeaconResponse.from_dict (fresh1 fresh2 : String) (now1 now2 : Int)
    (d : BeaconResponseDict) : BeaconResponse :=
  let r := BeaconResponse.init fresh1 now1 (d.responder_id.getD "unknown")
    (d.task_id.getD "") (d.match_score.getD 1) (d.estimate_cost.getD 1)
  { r with response_id := d.response_id.getD fresh2
           timestamp := d.timestamp.getD now2 }

/-- Claim C7: `from_dict ∘ to_dict` reproduces all six fields of a `Beacon`
(whose `task_id` is non-empty, as every constructed `Beacon` is: `__init__`
replaces a falsy `task_id` by the fresh non-empty uuid) and of a
`BeaconResponse` (whose scores carry the clamp-and-round normal form
established by `__init__`); decoding with `ttl` absent yields `ttl = 2`, and
decoding with `match_score` absent yields `match_score = 1.0`. -/
theorem protocol_roundtrip_and_defaults :
    (∀ (b : Beacon) (f1 f2 : String) (n1 n2 : Int), b.task_id ≠ "" →
      Beacon.from_dict f1 f2 n1 n2 b.to_dict = b) ∧
    (∀ (r : BeaconResponse) (f1 f2 : String) (n1 n2 : Int),
      r.match_score = round3 (max 0 (min 1 r.match_score)) →
      r.estimate_cost = round3 (max 0 r.estimate_cost) →
      BeaconResponse.from_dict f1 f2 n1 n2 r.to_dict = r) ∧
    (∀ (d : BeaconDict) (f1 f2 : String) (n1 n2 : Int), d.ttl = none →
      (Beacon.from_dict f1 f2 n1 n2 d).ttl = 2) ∧
    (∀ (d : BeaconResponseDict) (f1 f2 : String) (n1 n2 : Int),
      d.match_score = none →
      (BeaconResponse.from_dict f1 f2 n1 n2 d).match_score = 1) := by
  have h1 : max (0 : ℚ) (min 1 1) = 1 := by norm_num
  refine ⟨?_, ?_, ?_, ?_⟩
  · intro b f1 f2 n1 n2 hne
    obtain ⟨bid, snd, tid, req, ttl, ts⟩ := b
    simp only [Beacon.to_dict, Beacon.from_dict, Beacon.init, Option.getD_some,
      pyOrStr, Beacon.mk.injEq]
    simp [hne]
  · intro r f1 f2 n1 n2 hms hec
    obtain ⟨rid, resp, tid, ms, ec, ts⟩ := r
    simp only [BeaconResponse.to_dict, BeaconResponse.from_dict,
      BeaconResponse.init, Option.getD_some, BeaconResponse.mk.injEq]
    exact ⟨trivial, trivial, trivial, hms.symm, hec.symm, trivial⟩
  · intro d f1 f2 n1 n2 httl
    simp [Beacon.from_dict, Beacon.init, httl]
  · intro d f1 f2 n1 n2 hms
    simp [BeaconResponse.from_dict, BeaconResponse.init, hms, h1, round3_one]

/-- Concrete beacon for the C7 witness. -/
def beaconSample : Beacon := Beacon.init "uuid-1" 10 "node_a" "plan" (some "t7") 2

/-- Concrete beacon response for the C7 witness. -/
def responseSample : BeaconResponse := BeaconResponse.init "uuid-2" 11 "node_b" "t7" 1 1

/-- Witness for C7 at concrete inputs. -/
theorem protocol_roundtrip_and_defaults_witness :
    (beaconSample.task_id ≠ "" ∧
      Beacon.from_dict "g1" "g2" 20 21 beaconSample.to_dict = beaconSample) ∧
    (responseSample.match_score = round3 (max 0 (min 1 responseSample.match_score)) ∧
      BeaconResponse.from_dict "g1" "g2" 20 21 responseSample.to_dict = responseSample) ∧
    (Beacon.from_dict "g1" "g2" 20 21
      { beacon_id := some "b", sender := some "s", task_id := some "t",
        requirement := some "req", ttl := none, timestamp := some 3 }).ttl = 2 ∧
    (BeaconResponse.from_dict "g1" "g2" 20 21
      { response_id := some "r", responder_id := some "s", task_id := some "t",
        match_score := none, estimate_cost := some 1, timestamp := some 3 }).match_score = 1 := by
  have h1 : max (0 : ℚ) (min 1 1) = 1 := by norm_num
  have h2 : max (0 : ℚ) 1 = 1 := by norm_num
  have hms : responseSample.match_score = round3 (max 0 (min 1 responseSample.match_score)) := by
    simp only [responseSample, BeaconResponse.init, h1, round3_one]
  have hec : responseSample.estimate_cost = round3 (max 0 responseSample.estimate_cost) := by
    simp only [responseSample, BeaconResponse.init, h2, round3_one]
  refine ⟨⟨?_, ?_⟩, ⟨hms, ?_⟩, ?_, ?_⟩
  · decide
  · exact protocol_roundtrip_and_defaults.1 beaconSample "g1" "g2" 20 21 (by decide)
  · exact protocol_roundtrip_and_defaults.2.1 responseSample "g1" "g2" 20 21 hms hec
  · exact protocol_roundtrip_and_defaults.2.2.1 _ "g1" "g2" 20 21 rfl
  · exact protocol_roundtrip_and_defaults.2.2.2 _ "g1" "g2" 20 21 rfl

/-! ### Task state machine (`src/protocol/task_contract.py`, `src/agents/agent.py`)

The spec's data model (§3) fixes `Task.steps` to a dict with contiguous
stringified keys `"1".."N"`, so the dict is modelled positionally: the step
keyed `str(k)` in Python lives at index `k - 1`; `len(steps)` is the list
length and a Python `KeyError` is an out-of-range index. -/

/-- Legacy-API `Task` fields, the ones the execution state machine uses. -/
structure Task where
  subtask_id : Nat
  steps : List (String × String)
  previous_results : List String
  original_problem : String
  final_result : String
  user_id : String
  deriving DecidableEq

/-- `User._create_initial_task` (src/agents/user.py): `subtask_id` 0, no
steps, no previous results, empty `final_result`. -/
def createInitialTask (user_input user_id : String) : Task :=
  { subtask_id := 0
    steps := []
    previous_results := []
    original_problem := user_input
    final_result := ""
    user_id := user_id }

/-- `Task.from_dict` restricted to the legacy fields: the Python `or`-defaults
are the identity on every field except that a falsy (empty) `user_id` is
replaced by `"symphony_user"`. -/
def Task.from_dict_renorm (t : Task) : Task :=
  { t with user_id := if t.user_id = "" then "symphony_user" else t.user_id }

/-- The slice of `Agent` state that `execute_task` reads, with the external
base-model collaborators (§6) as oracle functions: `extract_task` returns
`(background, question, ok)`, `generate_task_dag` returns the ordered step
list plus an ok flag, `generate` returns the model output for a prompt. -/
structure AgentModel where
  agent_id : String
  system_prompt : String
  extract_task : String → String × String × Bool
  generate_task_dag :
    String → String → String → String → List (String × String) × Bool
  generate : String → String

/-- `Agent._build_task_description`. -/
def build_task_description (system_prompt instruction context : String) : String :=
  system_prompt ++ "\n" ++
  "Background information include: \"" ++ context ++ "\". " ++
  "Based on the background information, solve the sub-task: \"" ++ instruction ++ "\". " ++
  "Provide the final answer formatted as $\\boxed\x7b<Answer>\x7d$. " ++
  "Do not provide additional explanations or code. Output: "

/-- `Agent._decompose_task`: run the Decomposer; on success append the
background to `previous_results` and run the DAGGenerator, storing the steps
on DAG success.  `subtask_id` is incremented unconditionally, and the result
passes through `Task.from_dict`. -/
def decompose_task (a : AgentModel) (t : Task) : Task :=
  let user_input := t.original_problem
  let e := a.extract_task user_input
  let t1 :=
    if e.2.2 = true then
      let t' := { t with previous_results := t.previous_results ++ [e.1] }
      let d := a.generate_task_dag e.1 e.2.1 user_input "math"
      if d.2 = true then { t' with steps := d.1 } else t'
    else t
  Task.from_dict_renorm { t1 with subtask_id := t1.subtask_id + 1 }

/-- `Agent._execute_subtask`: look up the step keyed by the current
`subtask_id` (`none` is the Python `KeyError`; key `"0"` never occurs in a
`"1".."N"` dict), invoke the Generator on the built prompt, append
`"<instruction> Answer: <result>"`, set `final_result` when this is the last
step, and increment `subtask_id`; the result passes through
`Task.from_dict`. -/
def execute_subtask (a : AgentModel) (t : Task) : Option Task :=
  if t.subtask_id = 0 then none
  else
    match t.steps[t.subtask_id - 1]? with
    | none => none
    | some step =>
      let instruction := step.1
      let previous_context := String.intercalate " " t.previous_results
      let task_description :=
        build_task_description a.system_prompt instruction previous_context
      let result := a.generate task_description
      let t1 := { t with previous_results :=
        t.previous_results ++ [instruction ++ " Answer: " ++ result] }
      let t2 :=
        if t1.subtask_id = t1.steps.length then { t1 with final_result := result }
        else t1
      some (Task.from_dict_renorm { t2 with subtask_id := t2.subtask_id + 1 })

/-- `Agent.execute_task`: dispatch on `subtask_id == 0`. -/
def execute_task (a : AgentModel) (t : Task) : Option Task :=
  if t.subtask_id = 0 then some (decompose_task a t) else execute_subtask a t

/-- Inversion of one `execute_task` transition: it is either a decompose
step, or an execute step on the step list entry keyed by the current
`subtask_id`. -/
theorem execute_task_inv (a : AgentModel) (t t' : Task)
    (h : execute_task a t = some t') :
    (t.subtask_id = 0 ∧ t' = decompose_task a t) ∨
    (1 ≤ t.subtask_id ∧ ∃ instr req,
      t.steps[t.subtask_id - 1]? = some (instr, req) ∧
      t' = Task.from_dict_renorm { t with
        previous_results := t.previous_results ++ [instr ++ " Answer: " ++
          a.generate (build_task_description a.system_prompt instr
            (String.intercalate " " t.previous_results))]
        final_result :=
          if t.subtask_id = t.steps.length then
            a.generate (build_task_description a.system_prompt instr
              (String.intercalate " " t.previous_results))
          else t.final_result
        subtask_id := t.subtask_id + 1 }) := by
  unfold execute_task at h
  by_cases h0 : t.subtask_id = 0
  · rw [if_pos h0] at h
    exact Or.inl ⟨h0, (Option.some.injEq _ _ ▸ h).symm⟩
  · rw [if_neg h0] at h
    unfold execute_subtask at h
    rw [if_neg h0] at h
    right
    refine ⟨by omega, ?_⟩
    cases hm : t.steps[t.subtask_id - 1]? with
    | none => rw [hm] at h; exact absurd h (by simp)
    | some step =>
      rw [hm] at h
      simp only [Option.some.injEq] at h
      refine ⟨step.1, step.2, rfl, ?_⟩
      rw [← h]
      by_cases hlast : t.subtask_id = t.steps.length
      · simp only [if_pos hlast]
      · simp only [if_neg hlast]


theorem renorm_subtask (t : Task) :
    (Task.from_dict_renorm t).subtask_id = t.subtask_id := rfl

theorem renorm_steps (t : Task) :
    (Task.from_dict_renorm t).steps = t.steps := rfl

theorem renorm_prev (t : Task) :
    (Task.from_dict_renorm t).previous_results = t.previous_results := rfl

theorem renorm_final (t : Task) :
    (Task.from_dict_renorm t).final_result = t.final_result := rfl

theorem renorm_orig (t : Task) :
    (Task.from_dict_renorm t).original_problem = t.original_problem := rfl

theorem decompose_task_subtask (a : AgentModel) (t : Task) :
    (decompose_task a t).subtask_id = t.subtask_id + 1 := by
  unfold decompose_task
  rw [renorm_subtask]
  by_cases he : (a.extract_task t.original_problem).2.2 = true
  · by_cases hd : (a.generate_task_dag (a.extract_task t.original_problem).1
        (a.extract_task t.original_problem).2.1 t.original_problem "math").2 = true
    · simp [he, hd]
    · simp [he, hd]
  · simp [he]

theorem decompose_task_final (a : AgentModel) (t : Task) :
    (decompose_task a t).final_result = t.final_result := by
  unfold decompose_task
  rw [renorm_final]
  by_cases he : (a.extract_task t.original_problem).2.2 = true
  · by_cases hd : (a.generate_task_dag (a.extract_task t.original_problem).1
        (a.extract_task t.original_problem).2.1 t.original_problem "math").2 = true
    · simp [he, hd]
    · simp [he, hd]
  · simp [he]

theorem decompose_task_steps_ok (a : AgentModel) (t : Task)
    (he : (a.extract_task t.original_problem).2.2 = true)
    (hd : (a.generate_task_dag (a.extract_task t.original_problem).1
      (a.extract_task t.original_problem).2.1 t.original_problem "math").2 = true) :
    (decompose_task a t).steps =
      (a.generate_task_dag (a.extract_task t.original_problem).1
        (a.extract_task t.original_problem).2.1 t.original_problem "math").1 := by
  unfold decompose_task
  rw [renorm_steps]
  simp [he, hd]

theorem decompose_task_prev_ok (a : AgentModel) (t : Task)
    (he : (a.extract_task t.original_problem).2.2 = true) :
    (decompose_task a t).previous_results =
      t.previous_results ++ [(a.extract_task t.original_problem).1] := by
  unfold decompose_task
  rw [renorm_prev]
  by_cases hd : (a.generate_task_dag (a.extract_task t.original_problem).1
      (a.extract_task t.original_problem).2.1 t.original_problem "math").2 = true
  · simp [he, hd]
  · simp [he, hd]

/-- Collaborator assumptions under which the C1 invariant is preserved: the
Decomposer always succeeds, the DAGGenerator always succeeds with a non-empty
step list, and the Generator never returns the empty string. -/
def GoodOracle (a : AgentModel) : Prop :=
  (∀ s, (a.extract_task s).2.2 = true) ∧
  (∀ b q p d, (a.generate_task_dag b q p d).2 = true ∧
    (a.generate_task_dag b q p d).1 ≠ []) ∧
  (∀ p, a.generate p ≠ "")

/-- Claim C1 exactly as stated: every transition increments `subtask_id` by 1
and, including collaborator-failure transitions, afterwards `final_result` is
non-empty iff `subtask_id = len(steps) + 1`. -/
def C1Statement : Prop :=
  ∀ (a : AgentModel) (t t' : Task), execute_task a t = some t' →
    t'.subtask_id = t.subtask_id + 1 ∧
    (t'.final_result ≠ "" ↔ t'.subtask_id = t'.steps.length + 1)

/-- An agent whose Decomposer collaborator reports failure. -/
def failingAgent : AgentModel :=
  { agent_id := "agent_f"
    system_prompt := "sys"
    extract_task := fun _ => ("", "", false)
    generate_task_dag := fun _ _ _ _ => ([], false)
    generate := fun _ => "ans" }

/-- Claim C1 counterexample: when the Decomposer fails on the first
transition, `steps` stays empty while `subtask_id` advances to
`1 = len(steps) + 1`, yet `final_result` is still empty, so the claimed iff
fails. -/
theorem task_invariant_counterexample : ¬ C1Statement := by
  intro h
  have hstep : execute_task failingAgent (createInitialTask "p" "u") = some
      { subtask_id := 1, steps := [], previous_results := [],
        original_problem := "p", final_result := "", user_id := "u" } := by
    decide
  obtain ⟨-, hiff⟩ := h failingAgent (createInitialTask "p" "u") _ hstep
  simp at hiff

/-- Claim C1 amended: every decompose/execute transition increments
`subtask_id` by exactly 1 unconditionally; the iff between non-empty
`final_result` and `subtask_id = len(steps) + 1` is preserved by transitions
provided both decomposition collaborators succeed with a non-empty step list
and the Generator never returns an empty string — when a collaborator fails,
`subtask_id` still advances but the iff is violated (see the
counterexample). -/
theorem task_invariant_amended (a : AgentModel) (t t' : Task)
    (hstep : execute_task a t = some t') :
    t'.subtask_id = t.subtask_id + 1 ∧
    (GoodOracle a →
      (t.final_result ≠ "" ↔ t.subtask_id = t.steps.length + 1) →
      (t'.final_result ≠ "" ↔ t'.subtask_id = t'.steps.length + 1)) := by
  rcases execute_task_inv a t t' hstep with ⟨h0, rfl⟩ | ⟨h1, instr, req, hm, rfl⟩
  · refine ⟨decompose_task_subtask a t, ?_⟩
    intro hg hJ
    obtain ⟨hex, hdag, -⟩ := hg
    have he := hex t.original_problem
    have hd := (hdag (a.extract_task t.original_problem).1
      (a.extract_task t.original_problem).2.1 t.original_problem "math").1
    have hne := (hdag (a.extract_task t.original_problem).1
      (a.extract_task t.original_problem).2.1 t.original_problem "math").2
    rw [decompose_task_final, decompose_task_subtask,
      decompose_task_steps_ok a t he hd]
    rw [h0] at hJ ⊢
    have hfe : t.final_result = "" := by
      by_contra hne'
      have := hJ.mp hne'
      omega
    simp [hfe]
    exact hne
  · have hlt : t.subtask_id - 1 < t.steps.length := by
      rcases List.getElem?_eq_some.mp hm with ⟨hbound, -⟩
      exact hbound
    constructor
    · rw [renorm_subtask]
    · intro hg hJ
      obtain ⟨-, -, hgen⟩ := hg
      rw [renorm_final, renorm_subtask, renorm_steps]
      simp only []
      by_cases hlast : t.subtask_id = t.steps.length
      · rw [if_pos hlast]
        simp [hgen, hlast]
      · rw [if_neg hlast]
        have hkle : t.subtask_id ≤ t.steps.length := by omega
        have hfe : t.final_result = "" := by
          by_contra hne'
          have := hJ.mp hne'
          omega
        simp [hfe]
        omega

/-- A concrete all-successful collaborator set for the C1/C2 witnesses. -/
def goodAgent : AgentModel :=
  { agent_id := "agent_g"
    system_prompt := "sys"
    extract_task := fun _ => ("bg", "q", true)
    generate_task_dag := fun _ _ _ _ => ([("s1", "r1")], true)
    generate := fun _ => "42" }

theorem goodAgent_oracle : GoodOracle goodAgent :=
  ⟨fun _ => rfl, fun _ _ _ _ => ⟨rfl, by simp [goodAgent]⟩,
    fun _ => by simp [goodAgent]⟩

/-- The state after `goodAgent` decomposes the initial task. -/
def tauOne : Task :=
  { subtask_id := 1, steps := [("s1", "r1")], previous_results := ["bg"],
    original_problem := "p", final_result := "", user_id := "u" }

/-- Witness for C1 (amended) at a concrete transition. -/
theorem task_invariant_amended_witness :
    GoodOracle goodAgent ∧
    execute_task goodAgent (createInitialTask "p" "u") = some tauOne ∧
    (tauOne.subtask_id = (createInitialTask "p" "u").subtask_id + 1 ∧
      (tauOne.final_result ≠ "" ↔ tauOne.subtask_id = tauOne.steps.length + 1)) := by
  have hstep : execute_task goodAgent (createInitialTask "p" "u") = some tauOne := by
    decide
  have h := task_invariant_amended goodAgent (createInitialTask "p" "u") tauOne hstep
  exact ⟨goodAgent_oracle, hstep,
    h.1, h.2 goodAgent_oracle (by simp [createInitialTask])⟩

/-! ### Task lifecycle (claim C2) -/

/-- The step list produced by decomposing `problem` (the DAGGenerator applied
to the Decomposer's background/question split, domain tag `"math"`). -/
def dagSteps (a : AgentModel) (problem : String) : List (String × String) :=
  (a.generate_task_dag (a.extract_task problem).1 (a.extract_task problem).2.1
    problem "math").1

/-- Both decomposition collaborators report success on `problem`. -/
def DecomposeOk (a : AgentModel) (problem : String) : Prop :=
  (a.extract_task problem).2.2 = true ∧
  (a.generate_task_dag (a.extract_task problem).1 (a.extract_task problem).2.1
    problem "math").2 = true

/-- `n`-fold iteration of `execute_task` (the task makes one transition per
delivery to an executor; `none` is a raised exception). -/
def exec_n (a : AgentModel) (t : Task) : Nat → Option Task
  | 0 => some t
  | n + 1 => (exec_n a t n).bind (execute_task a)

/-- An execute transition with `1 ≤ subtask_id ≤ len(steps)` always
succeeds. -/
theorem execute_task_isSome (a : AgentModel) (t : Task)
    (h1 : 1 ≤ t.subtask_id) (h2 : t.subtask_id ≤ t.steps.length) :
    ∃ t', execute_task a t = some t' := by
  unfold execute_task execute_subtask
  rw [if_neg (by omega : ¬ t.subtask_id = 0), if_neg (by omega : ¬ t.subtask_id = 0)]
  have hidx : t.subtask_id - 1 < t.steps.length := by omega
  rw [List.getElem?_eq_getElem hidx]
  exact ⟨_, rfl⟩

/-- Field-level description of one execute transition. -/
theorem execute_subtask_spec (a : AgentModel) (t : Task)
    (h1 : 1 ≤ t.subtask_id) (h2 : t.subtask_id ≤ t.steps.length) :
    ∃ t' instr req,
      execute_task a t = some t' ∧
      t.steps[t.subtask_id - 1]? = some (instr, req) ∧
      t'.subtask_id = t.subtask_id + 1 ∧
      t'.steps = t.steps ∧
      t'.previous_results = t.previous_results ++ [instr ++ " Answer: " ++
        a.generate (build_task_description a.system_prompt instr
          (String.intercalate " " t.previous_results))] ∧
      t'.final_result = (if t.subtask_id = t.steps.length
        then a.generate (build_task_description a.system_prompt instr
          (String.intercalate " " t.previous_results))
        else t.final_result) := by
  obtain ⟨t', hstep⟩ := execute_task_isSome a t h1 h2
  rcases execute_task_inv a t t' hstep with ⟨h0, -⟩ | ⟨-, instr, req, hm, heq⟩
  · omega
  · subst heq
    exact ⟨_, instr, req, hstep, hm, renorm_subtask _, renorm_steps _,
      renorm_prev _, renorm_final _⟩

/-- After `m` transitions (`1 ≤ m ≤ N`) from the initial task the state has
`subtask_id = m`, the decomposed steps, and an empty `final_result`. -/
theorem exec_chain (a : AgentModel) (problem uid : String)
    (hok : DecomposeOk a problem) :
    ∀ m, 1 ≤ m → m ≤ (dagSteps a problem).length →
      ∃ tm, exec_n a (createInitialTask problem uid) m = some tm ∧
        tm.subtask_id = m ∧ tm.steps = dagSteps a problem ∧
        tm.final_result = "" := by
  obtain ⟨he, hd⟩ := hok
  intro m
  induction m with
  | zero => intro h; exact absurd h (by norm_num)
  | succ k ih =>
    intro _ hle
    by_cases hk : k = 0
    · subst hk
      refine ⟨decompose_task a (createInitialTask problem uid), ?_, ?_, ?_, ?_⟩
      · show (exec_n a (createInitialTask problem uid) 0).bind (execute_task a) = _
        simp only [exec_n, Option.some_bind]
        unfold execute_task
        rfl
      · rw [decompose_task_subtask]
        rfl
      · exact decompose_task_steps_ok a (createInitialTask problem uid) he hd
      · rw [decompose_task_final]
        rfl
    · obtain ⟨tk, hexec, hsub, hsteps, hfin⟩ := ih (by omega) (by omega)
      have hs1 : 1 ≤ tk.subtask_id := by rw [hsub]; omega
      have hs2 : tk.subtask_id ≤ tk.steps.length := by rw [hsub, hsteps]; omega
      obtain ⟨t', instr, req, hstep, -, hsub', hsteps', -, hfin'⟩ :=
        execute_subtask_spec a tk hs1 hs2
      refine ⟨t', ?_, ?_, ?_, ?_⟩
      · show (exec_n a (createInitialTask problem uid) k).bind (execute_task a) = some t'
        rw [hexec]
        exact hstep
      · rw [hsub', hsub]
      · rw [hsteps', hsteps]
      · rw [hfin', if_neg (by rw [hsub, hsteps]; omega)]
        exact hfin

/-- Claim C2 exactly as stated: whenever decomposition succeeds with `N ≥ 1`
steps, `N + 1` transitions from the initial task reach `subtask_id = N + 1`
with a non-empty `final_result`, and `final_result` is empty after every
earlier transition. -/
def C2Statement : Prop :=
  ∀ (a : AgentModel) (problem uid : String),
    DecomposeOk a problem → 1 ≤ (dagSteps a problem).length →
    (∀ m, m ≤ (dagSteps a problem).length →
      ∃ tm, exec_n a (createInitialTask problem uid) m = some tm ∧
        tm.final_result = "") ∧
    (∃ tfin, exec_n a (createInitialTask problem uid)
        ((dagSteps a problem).length + 1) = some tfin ∧
      tfin.subtask_id = (dagSteps a problem).length + 1 ∧
      tfin.final_result ≠ "")

/-- An agent whose Generator returns the empty string. -/
def emptyGenAgent : AgentModel :=
  { agent_id := "agent_e"
    system_prompt := "sys"
    extract_task := fun _ => ("bg", "q", true)
    generate_task_dag := fun _ _ _ _ => ([("s1", "r1")], true)
    generate := fun _ => "" }

/-- Claim C2 counterexample: if the Generator returns `""` on the final step,
the completed task (`subtask_id = N + 1`) still has `final_result = ""`, so
"final_result non-empty" fails. -/
theorem task_lifecycle_counterexample : ¬ C2Statement := by
  intro h
  obtain ⟨-, tfin, hexec, -, hne⟩ :=
    h emptyGenAgent "p" "u" ⟨rfl, rfl⟩ (by decide)
  have hlen : (dagSteps emptyGenAgent "p").length = 1 := rfl
  rw [hlen] at hexec
  have hcomp : exec_n emptyGenAgent (createInitialTask "p" "u") (1 + 1) = some
      { subtask_id := 2, steps := [("s1", "r1")],
        previous_results := ["bg", "s1 Answer: "],
        original_problem := "p", final_result := "", user_id := "u" } := by
    decide
  have heq := Option.some.inj (hcomp.symm.trans hexec)
  rw [← heq] at hne
  exact hne rfl

/-- Claim C2 amended: additionally assuming the Generator never returns an
empty string, the lifecycle holds as claimed; the final transition stores the
Generator's result in `final_result` and appends
`"<instruction> Answer: <result>"` to `previous_results`. -/
theorem task_lifecycle_amended (a : AgentModel) (problem uid : String)
    (hok : DecomposeOk a problem) (hN : 1 ≤ (dagSteps a problem).length)
    (hgen : ∀ p, a.generate p ≠ "") :
    (∀ m, m ≤ (dagSteps a problem).length →
      ∃ tm, exec_n a (createInitialTask problem uid) m = some tm ∧
        tm.final_result = "") ∧
    (∃ tN tfin instr req,
      exec_n a (createInitialTask problem uid)
        (dagSteps a problem).length = some tN ∧
      exec_n a (createInitialTask problem uid)
        ((dagSteps a problem).length + 1) = some tfin ∧
      (dagSteps a problem)[(dagSteps a problem).length - 1]? = some (instr, req) ∧
      tfin.subtask_id = (dagSteps a problem).length + 1 ∧
      tfin.final_result = a.generate (build_task_description a.system_prompt
        instr (String.intercalate " " tN.previous_results)) ∧
      tfin.final_result ≠ "" ∧
      tfin.previous_results = tN.previous_results ++
        [instr ++ " Answer: " ++ tfin.final_result]) := by
  constructor
  · intro m hm
    by_cases hm0 : m = 0
    · subst hm0
      exact ⟨createInitialTask problem uid, rfl, rfl⟩
    · obtain ⟨tm, hexec, -, -, hfin⟩ :=
        exec_chain a problem uid hok m (by omega) hm
      exact ⟨tm, hexec, hfin⟩
  · obtain ⟨tN, hexecN, hsub, hsteps, hfin⟩ :=
      exec_chain a problem uid hok (dagSteps a problem).length hN le_rfl
    have hs1 : 1 ≤ tN.subtask_id := by rw [hsub]; omega
    have hs2 : tN.subtask_id ≤ tN.steps.length := by rw [hsub, hsteps]
    obtain ⟨tfin, instr, req, hstep, hm, hsub', -, hprev', hfin'⟩ :=
      execute_subtask_spec a tN hs1 hs2
    rw [hsteps, hsub] at hm
    have hlast : tN.subtask_id = tN.steps.length := by rw [hsub, hsteps]
    rw [if_pos hlast] at hfin'
    refine ⟨tN, tfin, instr, req, hexecN, ?_, hm, ?_, ?_, ?_, ?_⟩
    · show (exec_n a (createInitialTask problem uid)
        (dagSteps a problem).length).bind (execute_task a) = some tfin
      rw [hexecN]
      exact hstep
    · rw [hsub', hsub]
    · exact hfin'
    · rw [hfin']
      exact hgen _
    · rw [hprev', hfin']

/-- Witness for C2 (amended) at a concrete one-step decomposition. -/
theorem task_lifecycle_amended_witness :
    DecomposeOk goodAgent "p" ∧ 1 ≤ (dagSteps goodAgent "p").length ∧
    (∃ tfin, exec_n goodAgent (createInitialTask "p" "u")
        ((dagSteps goodAgent "p").length + 1) = some tfin ∧
      tfin.subtask_id = (dagSteps goodAgent "p").length + 1 ∧
      tfin.final_result ≠ "") := by
  have hok : DecomposeOk goodAgent "p" := ⟨rfl, rfl⟩
  have hN : 1 ≤ (dagSteps goodAgent "p").length := by decide
  have hgen : ∀ p, goodAgent.generate p ≠ "" := fun p => by simp [goodAgent]
  obtain ⟨-, tN, tfin, instr, req, -, hfin, -, hsub, -, hne, -⟩ :=
    task_lifecycle_amended goodAgent "p" "u" hok hN hgen
  exact ⟨hok, hN, tfin, hfin, hsub, hne⟩

/-! ### Executor selection (`Agent._select_best_executors`,
`Agent._prioritize_self_execution`) -/

/-- One step of Python's stable `sorted(..., key=lambda x: x[1],
reverse=True)`: a later candidate is inserted after every already-placed
candidate whose score is at least as large. -/
def insertDesc (c : String × ℚ) : List (String × ℚ) → List (String × ℚ)
  | [] => [c]
  | d :: ds => if c.2 ≤ d.2 then d :: insertDesc c ds else c :: d :: ds

/-- Python's `sorted(candidates, key=lambda x: x[1], reverse=True)`: the
stable descending sort by match score. -/
def sortDesc (l : List (String × ℚ)) : List (String × ℚ) :=
  l.foldl (fun acc c => insertDesc c acc) []

/-- The scan loop of `_prioritize_self_execution`: the first index whose
candidate has the agent's own id and the best score (Python `enumerate` with
`break`). -/
def findSelfIdx (agent_id : String) (best : ℚ) :
    List (String × ℚ) → Option Nat
  | [] => none
  | c :: cs =>
    if c.1 = agent_id ∧ c.2 = best then some 0
    else (findSelfIdx agent_id best cs).map (· + 1)

/-- `Agent._prioritize_self_execution`: on a (sorted) candidate list, find the
first entry carrying the agent's own id and the head (best) score, and swap it
with the entry at rank 0. -/
def prioritize_self (agent_id : String) :
    List (String × ℚ) → List (String × ℚ)
  | [] => []
  | c0 :: rest =>
    match findSelfIdx agent_id c0.2 (c0 :: rest) with
    | none => c0 :: rest
    | some i => ((c0 :: rest).set i c0).set 0 ((c0 :: rest)[i]?.getD c0)

/-- `Agent._select_best_executors`: sort by score descending, apply the
self-preference swap, return the top `num_executors`. -/
def select_best_executors (agent_id : String)
    (candidates : List (String × ℚ)) (num_executors : Nat) :
    List (String × ℚ) :=
  (prioritize_self agent_id (sortDesc candidates)).take num_executors

theorem insertDesc_perm (c : String × ℚ) :
    ∀ l : List (String × ℚ), (insertDesc c l).Perm (c :: l) := by
  intro l
  induction l with
  | nil => exact List.Perm.refl _
  | cons d ds ih =>
    unfold insertDesc
    by_cases h : c.2 ≤ d.2
    · rw [if_pos h]
      exact (ih.cons d).trans (List.Perm.swap c d ds)
    · rw [if_neg h]

theorem sortDesc_perm_aux :
    ∀ (l acc : List (String × ℚ)),
      (l.foldl (fun acc c => insertDesc c acc) acc).Perm (acc ++ l) := by
  intro l
  induction l with
  | nil => intro acc; simp
  | cons c cs ih =>
    intro acc
    refine (ih (insertDesc c acc)).trans ?_
    refine (((insertDesc_perm c acc).append_right cs).trans ?_)
    exact List.perm_middle.symm

/-- The Python sort returns a permutation of its input. -/
theorem sortDesc_perm (l : List (String × ℚ)) : (sortDesc l).Perm l := by
  simpa using sortDesc_perm_aux l []

theorem insertDesc_pairwise (c : String × ℚ) (l : List (String × ℚ))
    (h : l.Pairwise (fun a b => b.2 ≤ a.2)) :
    (insertDesc c l).Pairwise (fun a b => b.2 ≤ a.2) := by
  induction l with
  | nil => simp [insertDesc]
  | cons d ds ih =>
    rw [List.pairwise_cons] at h
    obtain ⟨hd, hds⟩ := h
    unfold insertDesc
    by_cases hcd : c.2 ≤ d.2
    · rw [if_pos hcd]
      rw [List.pairwise_cons]
      refine ⟨?_, ih hds⟩
      intro x hx
      have hx' := (insertDesc_perm c ds).mem_iff.mp hx
      rcases List.mem_cons.mp hx' with h1 | h2
      · rw [h1]; exact hcd
      · exact hd x h2
    · rw [if_neg hcd]
      rw [List.pairwise_cons]
      refine ⟨?_, ?_⟩
      · intro x hx
        rcases List.mem_cons.mp hx with h1 | h2
        · rw [h1]
          exact le_of_lt (lt_of_not_le hcd)
        · exact le_trans (hd x h2) (le_of_lt (lt_of_not_le hcd))
      · rw [List.pairwise_cons]
        exact ⟨hd, hds⟩

/-- The Python sort returns a list sorted descending by score. -/
theorem sortDesc_pairwise (l : List (String × ℚ)) :
    (sortDesc l).Pairwise (fun a b => b.2 ≤ a.2) := by
  unfold sortDesc
  apply foldl_preserve (P := fun acc : List (String × ℚ) =>
    acc.Pairwise (fun a b => b.2 ≤ a.2))
  · intro acc c hacc
    exact insertDesc_pairwise c acc hacc
  · simp

theorem findSelfIdx_mem (agent_id : String) (best : ℚ) :
    ∀ (l : List (String × ℚ)) (i : Nat),
      findSelfIdx agent_id best l = some i →
      ∃ c, l[i]? = some c ∧ c.1 = agent_id ∧ c.2 = best := by
  intro l
  induction l with
  | nil => intro i h; simp [findSelfIdx] at h
  | cons c cs ih =>
    intro i h
    unfold findSelfIdx at h
    by_cases hc : c.1 = agent_id ∧ c.2 = best
    · rw [if_pos hc] at h
      obtain rfl : (0 : Nat) = i := Option.some.inj h
      exact ⟨c, List.getElem?_cons_zero, hc⟩
    · rw [if_neg hc] at h
      cases hrec : findSelfIdx agent_id best cs with
      | none => rw [hrec] at h; simp at h
      | some j =>
        rw [hrec] at h
        simp at h
        obtain ⟨c', hc', hid, hbest⟩ := ih j hrec
        refine ⟨c', ?_, hid, hbest⟩
        rw [← h, List.getElem?_cons_succ]
        exact hc'

theorem findSelfIdx_isSome (agent_id : String) (best : ℚ) :
    ∀ l : List (String × ℚ), (∃ c ∈ l, c.1 = agent_id ∧ c.2 = best) →
      ∃ i, findSelfIdx agent_id best l = some i := by
  intro l
  induction l with
  | nil =>
    intro h
    obtain ⟨c, hc, -⟩ := h
    simp at hc
  | cons d ds ih =>
    intro h
    obtain ⟨c, hc, hprop⟩ := h
    unfold findSelfIdx
    by_cases hd : d.1 = agent_id ∧ d.2 = best
    · exact ⟨0, by rw [if_pos hd]⟩
    · rcases List.mem_cons.mp hc with rfl | hmem
      · exact absurd hprop hd
      · obtain ⟨i, hi⟩ := ih ⟨c, hmem, hprop⟩
        exact ⟨i + 1, by rw [if_neg hd, hi]; rfl⟩

theorem set_cons_ne_nil (x : String × ℚ) (xs : List (String × ℚ)) (i : Nat)
    (v : String × ℚ) : (x :: xs).set i v ≠ [] := by
  cases i <;> simp [List.set]

theorem head?_set_zero (l : List (String × ℚ)) (v : String × ℚ) (h : l ≠ []) :
    (l.set 0 v).head? = some v := by
  cases l with
  | nil => exact absurd rfl h
  | cons x xs => rfl

/-- On a descending-sorted candidate list containing an own-id entry tied for
the best score, the self-preference swap puts `(agent_id, best)` at rank 0. -/
theorem prioritize_self_head (agent_id : String) (l : List (String × ℚ))
    (c : String × ℚ) (hmem : c ∈ l) (hid : c.1 = agent_id)
    (hbest : ∀ d ∈ l, d.2 ≤ c.2)
    (hsorted : l.Pairwise (fun a b => b.2 ≤ a.2)) :
    (prioritize_self agent_id l).head? = some (agent_id, c.2) := by
  cases l with
  | nil => simp at hmem
  | cons c0 rest =>
    have hbesteq : c0.2 = c.2 := by
      apply le_antisymm
      · exact hbest c0 (by simp)
      · rcases List.mem_cons.mp hmem with heq | hmem'
        · rw [heq]
        · exact (List.pairwise_cons.mp hsorted).1 c hmem'
    obtain ⟨i, hfind⟩ := findSelfIdx_isSome agent_id c0.2 (c0 :: rest)
      ⟨c, hmem, hid, hbesteq.symm⟩
    obtain ⟨ce, hce, hceid, hcebest⟩ :=
      findSelfIdx_mem agent_id c0.2 (c0 :: rest) i hfind
    have hval : ce = (agent_id, c.2) := by
      obtain ⟨ce1, ce2⟩ := ce
      simp only at hceid hcebest
      rw [hceid, hcebest, hbesteq]
    have hred : prioritize_self agent_id (c0 :: rest) =
        match findSelfIdx agent_id c0.2 (c0 :: rest) with
        | none => c0 :: rest
        | some i => ((c0 :: rest).set i c0).set 0 ((c0 :: rest)[i]?.getD c0) :=
      rfl
    rw [hred, hfind]
    show (((c0 :: rest).set i c0).set 0
      ((c0 :: rest)[i]?.getD c0)).head? = some (agent_id, c.2)
    rw [head?_set_zero _ _ (set_cons_ne_nil c0 rest i c0), hce]
    rw [Option.getD_some, hval]

theorem head?_take_pos (l : List (String × ℚ)) (k : Nat) (hk : 1 ≤ k) :
    (l.take k).head? = l.head? := by
  cases l with
  | nil => simp
  | cons x xs =>
    cases k with
    | zero => omega
    | succ n => rfl

/-- Claim C4: executor selection sorts candidates by score descending
(a sorted permutation of the input); when the agent's own id appears among the
entries tied for the top score the selection with `K ≥ 1` returns it at rank
0; and on `[(A, 0.8), (self, 0.8), (B, 0.6)]` with `K = 1` it returns
exactly `self`. -/
theorem executor_selection_spec :
    (∀ l : List (String × ℚ), (sortDesc l).Perm l ∧
      (sortDesc l).Pairwise (fun a b => b.2 ≤ a.2)) ∧
    (∀ (agent_id : String) (candidates : List (String × ℚ)) (k : Nat)
      (c : String × ℚ), c ∈ candidates → c.1 = agent_id →
      (∀ d ∈ candidates, d.2 ≤ c.2) → 1 ≤ k →
      (select_best_executors agent_id candidates k).head? =
        some (agent_id, c.2)) ∧
    select_best_executors "self" [("A", 0.8), ("self", 0.8), ("B", 0.6)] 1 =
      [("self", 0.8)] := by
  refine ⟨fun l => ⟨sortDesc_perm l, sortDesc_pairwise l⟩, ?_, ?_⟩
  · intro agent_id candidates k c hmem hid hbest hk
    unfold select_best_executors
    rw [head?_take_pos _ k hk]
    apply prioritize_self_head agent_id (sortDesc candidates) c
    · exact (sortDesc_perm candidates).mem_iff.mpr hmem
    · exact hid
    · intro d hd
      exact hbest d ((sortDesc_perm candidates).mem_iff.mp hd)
    · exact sortDesc_pairwise candidates
  · have hA : ¬ ("A" : String) = "self" := by decide
    have hB : ¬ ("B" : String) = "self" := by decide
    norm_num [select_best_executors, sortDesc, insertDesc, prioritize_self,
      findSelfIdx, hA, hB]

/-- Witness for C4 at the claim's concrete input. -/
theorem executor_selection_spec_witness :
    (("self", (0.8 : ℚ)) ∈
        ([("A", 0.8), ("self", 0.8), ("B", 0.6)] : List (String × ℚ)) ∧
      (∀ d ∈ ([("A", 0.8), ("self", 0.8), ("B", 0.6)] : List (String × ℚ)),
        d.2 ≤ (0.8 : ℚ))) ∧
    (select_best_executors "self" [("A", 0.8), ("self", 0.8), ("B", 0.6)]
      1).head? = some ("self", (0.8 : ℚ)) := by
  refine ⟨⟨by norm_num, ?_⟩, ?_⟩
  · intro d hd
    fin_cases hd <;> norm_num
  · exact executor_selection_spec.2.1 "self"
      [("A", 0.8), ("self", 0.8), ("B", 0.6)] 1 ("self", 0.8)
      (by norm_num) rfl (by intro d hd; fin_cases hd <;> norm_num)
      (by norm_num)

/-! ### Agent runner task gate (`src/agent_register.py`,
`AgentRunner._listen_tasks`)

`_listen_tasks` runs on a single thread: each loop iteration receives at most
one task and processes it to completion before the next receive, so at most
one local `execute_task` is in progress at any instant by construction.  The
BUSY/IDLE gate `first_task_received` (together with the `beacon_enabled`
event) decides whether a received task is executed locally or relayed. -/

/-- The coordination flags of one `AgentRunner`: `first_task_received` is the
BUSY gate, `beacon_enabled` the beacon-listening event. -/
structure RunnerState where
  first_task_received : Bool
  beacon_enabled : Bool
  deriving DecidableEq

/-- What one `_listen_tasks` iteration did with its (optional) incoming
task. -/
inductive RunnerAction
  | idle
  | submitted
  | delegated
  | relayed
  | failed
  deriving DecidableEq

/-- One iteration of `AgentRunner._listen_tasks` body: when the gate is IDLE
it is set BUSY (beacons paused), one `execute_task` transition runs, the
result is submitted (terminal: `subtask_id == len(steps) + 1`) or reassigned
(non-terminal), and the gate returns to IDLE; when BUSY the task is relayed
verbatim via `assign_task` with the flags untouched; a raised exception
(`none`) lands in the handler, which re-enables beacons and clears the gate
(fail-open). -/
def listen_tasks_step (a : AgentModel) (st : RunnerState) :
    Option Task → RunnerState × RunnerAction
  | none => (st, RunnerAction.idle)
  | some task =>
    if st.first_task_received = false then
      match execute_task a task with
      | some new_task =>
        if new_task.subtask_id = new_task.steps.length + 1 then
          ({ first_task_received := false, beacon_enabled := true },
            RunnerAction.submitted)
        else
          ({ first_task_received := false, beacon_enabled := true },
            RunnerAction.delegated)
      | none =>
        ({ first_task_received := false, beacon_enabled := true },
          RunnerAction.failed)
    else
      (st, RunnerAction.relayed)

/-- Claim C6: while the gate is BUSY a second incoming task is relayed —
never executed locally (the iteration leaves the state untouched and emits
only the relay); each iteration processes at most one task, so at most one
local execution is active at a time; every locally-processing iteration —
including the error path — returns the gate to IDLE with beacons
re-enabled, never leaving it BUSY. -/
theorem gate_exclusion (a : AgentModel) (st : RunnerState) (task : Task) :
    (st.first_task_received = true →
      listen_tasks_step a st (some task) = (st, RunnerAction.relayed)) ∧
    (st.first_task_received = false →
      (listen_tasks_step a st (some task)).1 =
        { first_task_received := false, beacon_enabled := true }) ∧
    (st.first_task_received = false → execute_task a task = none →
      (listen_tasks_step a st (some task)).2 = RunnerAction.failed) := by
  refine ⟨?_, ?_, ?_⟩
  · intro hbusy
    simp only [listen_tasks_step]
    rw [if_neg (by rw [hbusy]; simp)]
  · intro hidle
    simp only [listen_tasks_step]
    rw [if_pos hidle]
    cases hexec : execute_task a task with
    | none => rfl
    | some new_task =>
      show (if new_task.subtask_id = new_task.steps.length + 1 then
          (({ first_task_received := false, beacon_enabled := true },
            RunnerAction.submitted) : RunnerState × RunnerAction)
        else ({ first_task_received := false, beacon_enabled := true },
          RunnerAction.delegated)).1 =
        { first_task_received := false, beacon_enabled := true }
      by_cases hterm : new_task.subtask_id = new_task.steps.length + 1
      · rw [if_pos hterm]
      · rw [if_neg hterm]
  · intro hidle hfail
    simp only [listen_tasks_step]
    rw [if_pos hidle, hfail]

/-- A task whose current step key is missing (`steps` empty at
`subtask_id = 1`), so `execute_task` raises. -/
def stuckTask : Task :=
  { subtask_id := 1, steps := [], previous_results := [],
    original_problem := "p", final_result := "", user_id := "u" }

/-- Witness for C6 at concrete states. -/
theorem gate_exclusion_witness :
    (({ first_task_received := true, beacon_enabled := false } :
        RunnerState).first_task_received = true ∧
      listen_tasks_step goodAgent
        { first_task_received := true, beacon_enabled := false }
        (some stuckTask) =
        ({ first_task_received := true, beacon_enabled := false },
          RunnerAction.relayed)) ∧
    (execute_task goodAgent stuckTask = none ∧
      (listen_tasks_step goodAgent
        { first_task_received := false, beacon_enabled := true }
        (some stuckTask)).1 =
        { first_task_received := false, beacon_enabled := true } ∧
      (listen_tasks_step goodAgent
        { first_task_received := false, beacon_enabled := true }
        (some stuckTask)).2 = RunnerAction.failed) := by
  refine ⟨⟨rfl, ?_⟩, ⟨by decide, ?_, ?_⟩⟩
  · exact (gate_exclusion goodAgent
      { first_task_received := true, beacon_enabled := false } stuckTask).1 rfl
  · exact (gate_exclusion goodAgent
      { first_task_received := false, beacon_enabled := true } stuckTask).2.1 rfl
  · exact (gate_exclusion goodAgent
      { first_task_received := false, beacon_enabled := true } stuckTask).2.2
      rfl (by decide)

/-! ### Result voting (`src/user_register.py`, `UserRunner._vote_results`)

`Counter(current_answers).most_common(1)[0][0]`: a `Counter` iterates its
distinct keys in first-occurrence (insertion) order, and `most_common(1)`
reduces to `max(items, key=count)`, which keeps the first item on ties — so
the winner is the first-counted distinct value among those with the maximal
count.  `collections`/`heapq` are Python stdlib; this tie-breaking semantics
is modelled from the spec's description. -/

/-- The distinct answers in first-occurrence (Counter insertion) order. -/
def dedupFirst (answers : List String) : List String :=
  answers.foldl (fun acc a => if a ∈ acc then acc else acc ++ [a]) []

/-- `max(items, key=count)` over the keys `k :: ks`: replace the running best
only on a strictly larger count, so the first maximal key wins. -/
def pickFirstMax (answers : List String) (k : String) (ks : List String) :
    String :=
  ks.foldl (fun best k2 =>
    if answers.count best < answers.count k2 then k2 else best) k

/-- `UserRunner._vote_results`: `"[NO_ANSWERS]"` on an empty list, otherwise
the plurality winner with first-counted tie-breaking. -/
def vote_results (current_answers : List String) : String :=
  if current_answers = [] then "[NO_ANSWERS]"
  else
    match dedupFirst current_answers with
    | [] => "[NO_ANSWERS]"
    | k :: ks => pickFirstMax current_answers k ks

theorem pickFirstMax_spec (answers : List String) :
    ∀ (ks : List String) (k : String),
      (pickFirstMax answers k ks ∈ k :: ks) ∧
      (∀ x ∈ k :: ks,
        answers.count x ≤ answers.count (pickFirstMax answers k ks)) ∧
      (∃ l1 l2, k :: ks = l1 ++ pickFirstMax answers k ks :: l2 ∧
        ∀ x ∈ l1, answers.count x < answers.count (pickFirstMax answers k ks)) := by
  intro ks
  induction ks with
  | nil =>
    intro k
    refine ⟨by simp [pickFirstMax], ?_, [], [], rfl, by simp⟩
    intro x hx
    rcases List.mem_cons.mp hx with rfl | hx'
    · exact le_refl _
    · simp at hx'
  | cons k2 ks ih =>
    intro k
    have hstep : pickFirstMax answers k (k2 :: ks) =
        pickFirstMax answers
          (if answers.count k < answers.count k2 then k2 else k) ks := rfl
    by_cases hc : answers.count k < answers.count k2
    · obtain ⟨hmem, hmax, l1, l2, hsplit, hlt⟩ := ih k2
      rw [hstep, if_pos hc]
      refine ⟨List.mem_cons_of_mem k hmem, ?_, k :: l1, l2, ?_, ?_⟩
      · intro x hx
        rcases List.mem_cons.mp hx with rfl | hx'
        · have := hmax k2 (by simp)
          omega
        · exact hmax x hx'
      · rw [List.cons_append, ← hsplit]
      · intro x hx
        rcases List.mem_cons.mp hx with rfl | hx'
        · have := hmax k2 (by simp)
          omega
        · exact hlt x hx'
    · obtain ⟨hmem, hmax, l1, l2, hsplit, hlt⟩ := ih k
      rw [hstep, if_neg hc]
      refine ⟨?_, ?_, ?_⟩
      · rcases List.mem_cons.mp hmem with heq | hx'
        · rw [heq]
          exact List.mem_cons_self _ _
        · exact List.mem_cons_of_mem k (List.mem_cons_of_mem k2 hx')
      · intro x hx
        rcases List.mem_cons.mp hx with rfl | hx'
        · exact hmax x (by simp)
        · rcases List.mem_cons.mp hx' with rfl | hx2
          · have hk := hmax k (by simp)
            omega
          · exact hmax x (by simp [hx2])
      · cases l1 with
        | nil =>
          simp only [List.nil_append] at hsplit
          obtain ⟨hk, hl2⟩ : k = pickFirstMax answers k ks ∧ ks = l2 := by
            have h1 := List.head_eq_of_cons_eq hsplit
            have h2 := List.tail_eq_of_cons_eq hsplit
            exact ⟨h1, h2⟩
          exact ⟨[], k2 :: ks, by simp [← hk], by simp⟩
        | cons y l1' =>
          have h1 := List.head_eq_of_cons_eq hsplit
          have h2 := List.tail_eq_of_cons_eq hsplit
          refine ⟨k :: k2 :: l1', l2, ?_, ?_⟩
          · show k :: k2 :: ks =
              k :: k2 :: (l1' ++ pickFirstMax answers k ks :: l2)
            conv_lhs => rw [h2]
            rfl
          · intro x hx
            have hky : answers.count k < answers.count (pickFirstMax answers k ks) := by
              apply hlt
              rw [h1]
              exact List.mem_cons_self _ _
            rcases List.mem_cons.mp hx with rfl | hx'
            · exact hky
            · rcases List.mem_cons.mp hx' with rfl | hx2
              · omega
              · exact hlt x (List.mem_cons_of_mem y hx2)

theorem dedupFirst_mem_aux :
    ∀ (l acc : List String) (x : String),
      x ∈ l.foldl (fun acc a => if a ∈ acc then acc else acc ++ [a]) acc ↔
        (x ∈ acc ∨ x ∈ l) := by
  intro l
  induction l with
  | nil => intro acc x; simp
  | cons a l ih =>
    intro acc x
    rw [List.foldl_cons, ih]
    by_cases ha : a ∈ acc
    · rw [if_pos ha]
      constructor
      · intro h
        rcases h with h | h
        · exact Or.inl h
        · exact Or.inr (List.mem_cons_of_mem a h)
      · intro h
        rcases h with h | h
        · exact Or.inl h
        · rcases List.mem_cons.mp h with rfl | h2
          · exact Or.inl ha
          · exact Or.inr h2
    · rw [if_neg ha]
      simp only [List.mem_append, List.mem_singleton, List.mem_cons]
      tauto

/-- Membership in `dedupFirst` is membership in the answer list. -/
theorem dedupFirst_mem (answers : List String) (x : String) :
    x ∈ dedupFirst answers ↔ x ∈ answers := by
  unfold dedupFirst
  rw [dedupFirst_mem_aux]
  simp

/-- Claim C3: on every non-empty answer list the computed vote is an answer
whose count is maximal (plurality under exact string equality), and every
distinct value counted before it (in `dedupFirst`'s first-occurrence order)
has a strictly smaller count — ties go to the value first counted in
insertion order; concretely `["4","4","5"] ↦ "4"` and a two-way tie returns
whichever answer was received first. -/
theorem vote_results_spec :
    (∀ answers : List String, answers ≠ [] →
      vote_results answers ∈ answers ∧
      (∀ x ∈ answers,
        answers.count x ≤ answers.count (vote_results answers)) ∧
      (∃ l1 l2, dedupFirst answers = l1 ++ vote_results answers :: l2 ∧
        ∀ x ∈ l1, answers.count x < answers.count (vote_results answers))) ∧
    vote_results ["4", "4", "5"] = "4" ∧
    vote_results ["a", "b"] = "a" ∧
    vote_results ["b", "a"] = "b" := by
  refine ⟨?_, by decide, by decide, by decide⟩
  intro answers hne
  cases hd : dedupFirst answers with
  | nil =>
    exfalso
    obtain ⟨a, ha⟩ : ∃ a, a ∈ answers := by
      cases answers with
      | nil => exact absurd rfl hne
      | cons x xs => exact ⟨x, by simp⟩
    have := (dedupFirst_mem answers a).mpr ha
    rw [hd] at this
    simp at this
  | cons k ks =>
    have hv : vote_results answers = pickFirstMax answers k ks := by
      unfold vote_results
      rw [if_neg hne, hd]
    obtain ⟨hmem, hmax, l1, l2, hsplit, hlt⟩ := pickFirstMax_spec answers ks k
    rw [hv]
    refine ⟨?_, ?_, l1, l2, hsplit, hlt⟩
    · apply (dedupFirst_mem answers _).mp
      rw [hd]
      exact hmem
    · intro x hx
      exact hmax x (by rw [← hd]; exact (dedupFirst_mem answers x).mpr hx)

/-- Witness for C3 at a concrete input. -/
theorem vote_results_spec_witness :
    (["4", "4", "5"] : List String) ≠ [] ∧
      vote_results ["4", "4", "5"] ∈ (["4", "4", "5"] : List String) :=
  ⟨by decide, (vote_results_spec.1 ["4", "4", "5"] (by decide)).1⟩

/-! ### Batch checkpointing (`src/user_register.py`,
`UserRunner.process_task_batch`) -/

/-- One problem of the batch input (`{'problem': ..., 'unique_id': ...}`). -/
structure BatchProblem where
  unique_id : String
  problem : String

/-- One record appended to the JSONL log. -/
structure BatchRecord where
  unique_id : String
  final_answer : String
  full_answers : List (List String)
  deriving DecidableEq

/-- The record `process_task_batch` buffers for one problem: the voted answer
and details on a normal `process_task` return, the `[ERROR]` record when it
raises. -/
def recordOf (process : String → Except String (String × List (List String)))
    (p : BatchProblem) : BatchRecord :=
  match process p.problem with
  | Except.ok r => BatchRecord.mk p.unique_id r.1 r.2
  | Except.error e => BatchRecord.mk p.unique_id ("[ERROR] " ++ e) []

/-- The loop of `process_task_batch`: walk the problems strictly sequentially
(each `process` call returns before the next begins), buffer records in
`tasks_to_save`, flush the buffer to the log whenever the incremented
`processed_count` on the normal path hits a multiple of 5 (the error path
increments the count without a flush check), and stop once `processed_count`
reaches `max_process`.  Returns the flush calls made (each the record list
written), the unflushed buffer, and the final count. -/
def batchLoop (process : String → Except String (String × List (List String)))
    (max_process : Nat) :
    List BatchProblem → List BatchRecord → Nat → List (List BatchRecord) →
      List (List BatchRecord) × List BatchRecord × Nat
  | [], to_save, cnt, saves => (saves, to_save, cnt)
  | p :: ps, to_save, cnt, saves =>
    if max_process ≤ cnt then (saves, to_save, cnt)
    else
      match process p.problem with
      | Except.ok r =>
        if (cnt + 1) % 5 = 0 then
          batchLoop process max_process ps [] (cnt + 1)
            (saves ++ [to_save ++ [BatchRecord.mk p.unique_id r.1 r.2]])
        else
          batchLoop process max_process ps
            (to_save ++ [BatchRecord.mk p.unique_id r.1 r.2]) (cnt + 1) saves
      | Except.error e =>
        batchLoop process max_process ps
          (to_save ++ [BatchRecord.mk p.unique_id ("[ERROR] " ++ e) []])
          (cnt + 1) saves

/-- `UserRunner.process_task_batch`, returning the list of save calls: run
the loop from an empty buffer and zero count, then flush any remaining
records once at the end.  `max_process = max_tasks or len(tasks)` keeps
Python truthiness (`None` and `0` both mean "all"). -/
def process_task_batch
    (process : String → Except String (String × List (List String)))
    (tasks : List BatchProblem) (max_tasks : Option Nat) :
    List (List BatchRecord) :=
  let max_process := match max_tasks with
    | none => tasks.length
    | some m => if m = 0 then tasks.length else m
  match batchLoop process max_process tasks [] 0 [] with
  | (saves, to_save, _) => if to_save = [] then saves else saves ++ [to_save]

theorem batchLoop_spec
    (process : String → Except String (String × List (List String)))
    (max_process : Nat) :
    ∀ (ps : List BatchProblem) (to_save : List BatchRecord) (cnt : Nat)
      (saves : List (List BatchRecord)),
      (∀ p ∈ ps, (process p.problem).isOk = true) →
      cnt + ps.length ≤ max_process →
      to_save.length = cnt % 5 →
      (batchLoop process max_process ps to_save cnt saves).2.2 =
          cnt + ps.length ∧
        (batchLoop process max_process ps to_save cnt saves).2.1.length =
          (cnt + ps.length) % 5 ∧
        (batchLoop process max_process ps to_save cnt saves).1.map
            List.length =
          saves.map List.length ++
            List.replicate ((cnt + ps.length) / 5 - cnt / 5) 5 := by
  intro ps
  induction ps with
  | nil =>
    intro to_save cnt saves hok hmax hbuf
    simp [batchLoop, hbuf]
  | cons p ps ih =>
    intro to_save cnt saves hok hmax hbuf
    have hcnt : ¬ max_process ≤ cnt := by
      have := ps.length
      simp only [List.length_cons] at hmax
      omega
    have hpok : (process p.problem).isOk = true := hok p (by simp)
    unfold batchLoop
    rw [if_neg hcnt]
    split
    case _ r hproc =>
      have hok' : ∀ q ∈ ps, (process q.problem).isOk = true :=
        fun q hq => hok q (by simp [hq])
      have hmax' : cnt + 1 + ps.length ≤ max_process := by
        simp only [List.length_cons] at hmax
        omega
      by_cases hflush : (cnt + 1) % 5 = 0
      · rw [if_pos hflush]
        have hbuf' : ([] : List BatchRecord).length = (cnt + 1) % 5 := by
          simp [hflush]
        obtain ⟨h1, h2, h3⟩ := ih [] (cnt + 1)
          (saves ++ [to_save ++ [BatchRecord.mk p.unique_id r.1 r.2]])
          hok' hmax' hbuf'
        refine ⟨by rw [h1]; simp [List.length_cons]; omega,
          by rw [h2]; simp [List.length_cons]; omega, ?_⟩
        rw [h3, List.map_append]
        have hlen5 : (to_save ++
            [BatchRecord.mk p.unique_id r.1 r.2]).length = 5 := by
          simp [hbuf]
          omega
        simp only [List.map_cons, List.map_nil, hlen5]
        rw [List.append_assoc]
        congr 1
        have harith : (cnt + 1 + ps.length) / 5 - (cnt + 1) / 5 + 1 =
            (cnt + (p :: ps).length) / 5 - cnt / 5 := by
          simp only [List.length_cons]
          omega
        rw [show ([5] : List Nat) ++
            List.replicate ((cnt + 1 + ps.length) / 5 - (cnt + 1) / 5) 5 =
            List.replicate ((cnt + 1 + ps.length) / 5 - (cnt + 1) / 5 + 1) 5 by
          rw [List.replicate_succ]; rfl]
        rw [harith]
      · rw [if_neg hflush]
        have hbuf' : (to_save ++
            [BatchRecord.mk p.unique_id r.1 r.2]).length = (cnt + 1) % 5 := by
          simp [hbuf]
          omega
        obtain ⟨h1, h2, h3⟩ := ih
          (to_save ++ [BatchRecord.mk p.unique_id r.1 r.2]) (cnt + 1) saves
          hok' hmax' hbuf'
        refine ⟨by rw [h1]; simp [List.length_cons]; omega,
          by rw [h2]; simp [List.length_cons]; omega, ?_⟩
        rw [h3]
        have harith : (cnt + 1 + ps.length) / 5 - (cnt + 1) / 5 =
            (cnt + (p :: ps).length) / 5 - cnt / 5 := by
          simp only [List.length_cons]
          omega
        rw [harith]
    case _ e hproc =>
      rw [hproc] at hpok
      simp [Except.isOk, Except.toBool] at hpok

/-- The records the loop accumulates (flushed plus buffered) are exactly one
record per processed problem, in input order: the batch is handled strictly
sequentially. -/
theorem batchLoop_join
    (process : String → Except String (String × List (List String)))
    (max_process : Nat) :
    ∀ (ps : List BatchProblem) (to_save : List BatchRecord) (cnt : Nat)
      (saves : List (List BatchRecord)),
      cnt + ps.length ≤ max_process →
      (batchLoop process max_process ps to_save cnt saves).1.flatten ++
          (batchLoop process max_process ps to_save cnt saves).2.1 =
        saves.flatten ++ to_save ++ ps.map (recordOf process) := by
  intro ps
  induction ps with
  | nil =>
    intro to_save cnt saves hmax
    simp [batchLoop]
  | cons p ps ih =>
    intro to_save cnt saves hmax
    have hcnt : ¬ max_process ≤ cnt := by
      simp only [List.length_cons] at hmax
      omega
    have hmax' : cnt + 1 + ps.length ≤ max_process := by
      simp only [List.length_cons] at hmax
      omega
    unfold batchLoop
    rw [if_neg hcnt]
    split
    case _ r hproc =>
      have hrecp : recordOf process p = BatchRecord.mk p.unique_id r.1 r.2 := by
        unfold recordOf
        rw [hproc]
      by_cases hflush : (cnt + 1) % 5 = 0
      · rw [if_pos hflush, ih [] (cnt + 1) _ hmax', List.map_cons, hrecp]
        simp
      · rw [if_neg hflush, ih _ (cnt + 1) saves hmax', List.map_cons, hrecp]
        simp
    case _ e hproc =>
      have hrecp : recordOf process p =
          BatchRecord.mk p.unique_id ("[ERROR] " ++ e) [] := by
        unfold recordOf
        rw [hproc]
      rw [ih _ (cnt + 1) saves hmax', List.map_cons, hrecp]
      simp

/-- Claim C8: with every `process_task` call returning normally, batch
processing is strictly sequential (the concatenation of all save calls is one
record per problem, in order) and the save calls write groups of 5 with the
remainder written once at the end — for `N` problems, `N / 5` writes of 5
records and, when `N % 5 ≠ 0`, one final write of `N % 5` records; for 12
problems that is exactly 3 writes of 5, 5, and 2. -/
theorem batch_checkpointing
    (process : String → Except String (String × List (List String)))
    (tasks : List BatchProblem)
    (hok : ∀ p ∈ tasks, (process p.problem).isOk = true) :
    (process_task_batch process tasks none).map List.length =
      List.replicate (tasks.length / 5) 5 ++
        (if tasks.length % 5 = 0 then [] else [tasks.length % 5]) ∧
    (process_task_batch process tasks none).flatten =
      tasks.map (recordOf process) := by
  obtain ⟨h1, h2, h3⟩ := batchLoop_spec process tasks.length tasks [] 0 []
    hok (by omega) (by simp)
  have hjoin := batchLoop_join process tasks.length tasks [] 0 [] (by omega)
  have hbatch : process_task_batch process tasks none =
      (if (batchLoop process tasks.length tasks [] 0 []).2.1 = []
        then (batchLoop process tasks.length tasks [] 0 []).1
        else (batchLoop process tasks.length tasks [] 0 []).1 ++
          [(batchLoop process tasks.length tasks [] 0 []).2.1]) := by
    unfold process_task_batch
    rfl
  simp only [Nat.zero_add] at h2 h3
  constructor
  · rw [hbatch]
    by_cases hmod : tasks.length % 5 = 0
    · rw [if_pos (by rw [← List.length_eq_zero]; omega)]
      rw [h3]
      simp [hmod]
    · rw [if_neg (by
        intro hnil
        rw [hnil] at h2
        simp at h2
        omega)]
      rw [if_neg hmod, List.map_append, h3]
      simp [h2]
  · rw [hbatch]
    by_cases hnil : (batchLoop process tasks.length tasks [] 0 []).2.1 = []
    · rw [if_pos hnil]
      rw [hnil] at hjoin
      simpa using hjoin
    · rw [if_neg hnil]
      rw [List.flatten_append]
      simpa using hjoin

/-- A process oracle that always returns normally. -/
def okProcess : String → Except String (String × List (List String)) :=
  fun p => Except.ok (p, [])

/-- Twelve identical batch problems. -/
def twelveTasks : List BatchProblem :=
  List.replicate 12 (BatchProblem.mk "t" "p")

/-- Witness for C8: 12 problems, all successful, produce exactly 3 save calls
of 5, 5 and 2 records. -/
theorem batch_checkpointing_witness :
    (∀ p ∈ twelveTasks, (okProcess p.problem).isOk = true) ∧
    (process_task_batch okProcess twelveTasks none).map List.length =
      [5, 5, 2] := by
  have hok : ∀ p ∈ twelveTasks, (okProcess p.problem).isOk = true :=
    fun p _ => rfl
  refine ⟨hok, ?_⟩
  rw [(batch_checkpointing okProcess twelveTasks hok).1]
  decide

/-! ### User construction (`src/agents/user.py`, `User.__init__`) -/

/-- The `User` state relevant to construction. -/
structure UserModel where
  user_id : String
  consensus_count : Int
  deriving DecidableEq

/-- `User.__init__`: the consensus-count guard is the first statement, ahead
of the `NetworkAdapter`/`ISEPClient` construction and neighbor registration,
so an invalid count raises `ValueError` before any network or client state
exists; a valid count is stored unchanged. -/
def User.init (node_id : String) (consensus_count : Int) :
    Except String UserModel :=
  if consensus_count ≤ 0 then Except.error "Consensus count must be positive"
  else Except.ok (UserModel.mk node_id consensus_count)

/-- Claim C10: `User.__init__` raises `ValueError` for every
`consensus_count ≤ 0` — before any network or client state is created (the
error branch constructs nothing) — and for every `consensus_count ≥ 1` the
check passes and `consensus_count` is stored unchanged. -/
theorem user_init_guard (node_id : String) (consensus_count : Int) :
    (consensus_count ≤ 0 →
      User.init node_id consensus_count =
        Except.error "Consensus count must be positive") ∧
    (1 ≤ consensus_count →
      User.init node_id consensus_count =
        Except.ok (UserModel.mk node_id consensus_count)) := by
  constructor
  · intro h
    unfold User.init
    rw [if_pos h]
  · intro h
    unfold User.init
    rw [if_neg (by omega)]

/-- Witness for C10 at `consensus_count = 0` and `consensus_count = 3`. -/
theorem user_init_guard_witness :
    ((0 : Int) ≤ 0 ∧
      User.init "u" 0 = Except.error "Consensus count must be positive") ∧
    ((1 : Int) ≤ 3 ∧ User.init "u" 3 = Except.ok (UserModel.mk "u" 3)) :=
  ⟨⟨le_refl 0, (user_init_guard "u" 0).1 (le_refl 0)⟩,
    ⟨by norm_num, (user_init_guard "u" 3).2 (by norm_num)⟩⟩

end Symphony
